import Mathlib

/-!
Verification development for the netipds snapshot (binary radix tree over IP
keys).  The definitions below are a shallow embedding of the Go sources:

* `key.go`    — the key (bit-string) type and its pure operations;
* `part_002`  — the slice/arena-backed tree (`tree[T]`, `treeCursor[T]`) and
  its operations (Insert, InsertLazy, Compress, Remove, SubtractKey,
  insertHole, MergeTree, intersectTreeImpl, walk, Contains, ...);
* `part_000`  — the `PrefixSetBuilder` facade (validity check and error
  surface).

Machine integers are embedded as `Nat`; the arena (`nodes []node` indexed by
`nodeRef`, plus the `values map[nodeRef]T`) is embedded as explicit state,
and every Go slice/map access that can panic (index out of range) is an
`Option` failure.  Recursive cursor methods take explicit fuel and return
`none` on fuel exhaustion or on a panic, so each definition is executable.
-/

set_option maxRecDepth 4000

namespace Netipds

/-! ## Bit-level helpers

The snapshot's `key.content` field is declared as one 64-bit half of the
128-bit key (`uint64`), with the `uint128` type and the helpers
`bitsClearedFrom`, `isBitSet` and the common-prefix-length function living in
files that are not part of the snapshot.  Modelled from the spec: the content
is the full 128-bit word ("An immutable 128-bit content word together with two
bit positions"), bit position 0 is most significant, bits at positions
`>= len` are zero (the constructor clears them), and `commonPrefixLen` is the
leading-common-bit count of the two contents capped by both lengths. -/

/-- Modelled from the spec: clear all bits of the 128-bit word `content` at
positions `>= len` (bit 0 is the most significant bit). -/
def bitsClearedFrom (content len : Nat) : Nat :=
  content / 2 ^ (128 - len) * 2 ^ (128 - len)

/-- Modelled from the spec: the bit of the 128-bit word `content` at position
`i`, counting from the most significant bit. -/
def isBitSet (content i : Nat) : Nat :=
  content / 2 ^ (127 - i) % 2

/-- Modelled from the spec: the number of leading bits on which the two
128-bit words agree. -/
def u128CommonPrefixLen (a b : Nat) : Nat :=
  ((List.range 128).takeWhile (fun i => isBitSet a i == isBitSet b i)).length

/-- bit selector for a node's children (`bit` in key.go). -/
def bitL : Nat := 0

/-- bit selector for a node's children (`bit` in key.go). -/
def bitR : Nat := 1

/-- Modelled from the spec: the sibling bit selector (`inv` is called by
part_002 but not defined in the snapshot; the commented-out pointer code
spells it `(^bit) & 1`). -/
def inv (b : Nat) : Nat := 1 - b

/-! ## key (key.go) -/

/-- the `key` struct of key.go: a bit string stored in `content` between
`offset` and `len`, counting from the most significant bit. -/
structure Key where
  content : Nat
  offset : Nat
  len : Nat
deriving Repr, DecidableEq

/-- `newKey` of key.go: the constructor clears the content from `len`. -/
def newKey (content offset len : Nat) : Key :=
  ⟨bitsClearedFrom content len, offset, len⟩

/-- the zero key (`key{}`). -/
def zeroKey : Key := ⟨0, 0, 0⟩

/-- `key.bit` of key.go. -/
def Key.bit (k : Key) (i : Nat) : Nat := isBitSet k.content i

/-- `key.isZero` of key.go. -/
def Key.isZero (k : Key) : Bool := k.len == 0

/-- `key.equalFromRoot` of key.go: same content and len, offsets ignored. -/
def Key.equalFromRoot (k o : Key) : Bool :=
  k.len == o.len && k.content == o.content

/-- `key.commonPrefixLen` of key.go. -/
def Key.commonPrefixLen (k o : Key) : Nat :=
  min (min o.len k.len) (u128CommonPrefixLen k.content o.content)

/-- `key.isPrefixOf` of key.go. -/
def Key.isPrefixOf (k o : Key) (strict : Bool) : Bool :=
  if k.len ≤ o.len && k.content == bitsClearedFrom o.content k.len then
    !(strict && k.equalFromRoot o)
  else false

/-- `key.truncated` of key.go (part_002 calls it `trunc`). -/
def Key.trunc (k : Key) (n : Nat) : Key := newKey k.content k.offset n

/-- `key.rest` of key.go: a copy of `k` starting at position `i`; if
`i > k.len` the position is reset to 0, and the zero key is returned
unchanged. -/
def Key.rest (k : Key) (i : Nat) : Key :=
  if k.isZero then k
  else if i > k.len then newKey k.content 0 k.len
  else newKey k.content i k.len

/-- `key.next` of key.go: a one-bit key just beyond `k`, set to 1 if
`b == bitR`. -/
def Key.next (k : Key) (b : Nat) : Key :=
  if b == bitL then ⟨k.content, k.len, k.len + 1⟩
  else ⟨Nat.lor k.content (2 ^ (128 - k.len - 1)), k.len, k.len + 1⟩

/-! ## The arena tree (part_002) -/

/-- the `node` struct of part_002: key segment, entry flag and the two child
references into the arena (0 means absent). -/
structure node where
  key : Key
  hasEntry : Bool
  left : Nat
  right : Nat
deriving Repr, DecidableEq

/-- the zero `node` (`node{}`). -/
def nodeZero : node := ⟨zeroKey, false, 0, 0⟩

/-- the `tree[T]` struct of part_002: the node arena (index 0 is the root and
doubles as the absent-child sentinel) and the values map indexed by node
reference.  The cursor position field is not part of the state proper. -/
structure tree (T : Type) where
  nodes : List node
  values : List (Nat × T)
deriving Repr, DecidableEq

/-- lookup in the embedded `values` map (Go map read with ok flag). -/
def mapGet {T : Type} (m : List (Nat × T)) (n : Nat) : Option T :=
  (m.find? (fun p => p.1 == n)).map Prod.snd

/-- update of the embedded `values` map (Go map assignment). -/
def mapSet {T : Type} (m : List (Nat × T)) (n : Nat) (v : T) : List (Nat × T) :=
  if m.any (fun p => p.1 == n) then
    m.map (fun p => if p.1 == n then (n, v) else p)
  else m ++ [(n, v)]

/-- `newTree` of part_002: a single zero-valued root node and an empty values
map. -/
def newTreeT (T : Type) : tree T := ⟨[nodeZero], []⟩

/-- arena read `t.nodes[n]`; `none` is the Go index-out-of-range panic. -/
def readNode {T : Type} (s : tree T) (n : Nat) : Option node :=
  s.nodes.get? n

/-- arena write `t.nodes[n] = f t.nodes[n]`; `none` is the Go
index-out-of-range panic. -/
def modifyNode {T : Type} (s : tree T) (n : Nat) (f : node → node) :
    Option (tree T) :=
  match s.nodes.get? n with
  | none => none
  | some nd => some ⟨s.nodes.set n (f nd), s.values⟩

/-- `tree.newNode` of part_002: appends a node with key `k` to the arena and
returns `nodeRef(len(t.nodes))` — the length of the slice after the append,
which is one past the index of the node just appended. -/
def newNodeS {T : Type} (s : tree T) (k : Key) : tree T × Nat :=
  let nodes2 := s.nodes ++ [⟨k, false, 0, 0⟩]
  (⟨nodes2, s.values⟩, nodes2.length)

/-- `tree.setValue` of part_002: stores `v` in the values map for node `n`
and returns `n`.  It does not touch the node's `hasEntry` flag. -/
def setValueS {T : Type} (s : tree T) (n : Nat) (v : T) : tree T :=
  ⟨s.nodes, mapSet s.values n v⟩

/-- `tree.clearEntry` of part_002: assigns the zero value of `T` to the
values map entry (it does not delete the map key) and clears `hasEntry`. -/
def clearEntryS {T : Type} [Inhabited T] (s : tree T) (n : Nat) :
    Option (tree T) :=
  modifyNode ⟨s.nodes, mapSet s.values n default⟩ n
    (fun nd => { nd with hasEntry := false })

/-- `tree.childAt` of part_002: the child reference of `n` selected by `b`. -/
def childAtRef {T : Type} (s : tree T) (n : Nat) (b : Nat) : Option Nat :=
  match readNode s n with
  | none => none
  | some nd => some (if b == bitR then nd.right else nd.left)

/-- `treeCursor.ChildAt` of part_002: a cursor at the selected child, or the
current cursor itself with `false` when the child is absent. -/
def cursorChildAt {T : Type} (s : tree T) (n : Nat) (b : Nat) :
    Option (Nat × Bool) :=
  match childAtRef s n b with
  | none => none
  | some c => some (if c == 0 then (n, false) else (c, true))

/-- `tree.setChildAt` of part_002, as written: when `b == bitR` it assigns
both the right child and then, unconditionally, the left child. -/
def setChildAtS {T : Type} (s : tree T) (b : Nat) (n o : Nat) :
    Option (tree T) :=
  modifyNode s n (fun nd =>
    if b == bitR then { nd with right := o, left := o }
    else { nd with left := o })

/-- `tree.setChild` of part_002: a provided reference 0 is ignored; otherwise
the child position is chosen by the bit of `o`'s key at its offset, and the
assignment happens only if that spot is vacant.  Returns `o`. -/
def setChildS {T : Type} (s : tree T) (n o : Nat) : Option (tree T × Nat) :=
  if o == 0 then some (s, o)
  else
    match readNode s o with
    | none => none
    | some oNd =>
      let b := oNd.key.bit oNd.key.offset
      match childAtRef s n b with
      | none => none
      | some cur =>
        if cur == 0 then
          match setChildAtS s b n o with
          | none => none
          | some s2 => some (s2, o)
        else some (s, o)

/-- `treeCursor.AddChild` of part_002: allocate a node with key `k` and hand
it to `setChild`. -/
def addChildS {T : Type} (s : tree T) (n : Nat) (k : Key) :
    Option (tree T × Nat) :=
  let (s1, o) := newNodeS s k
  setChildS s1 n o

/-- `treeCursor.SetNode` of part_002: replace the node at the cursor. -/
def setNodeS {T : Type} (s : tree T) (n : Nat) (nd : node) : Option (tree T) :=
  modifyNode s n (fun _ => nd)

/-- `treeCursor.SetOffset` of part_002: overwrite the key's offset field in
place (no re-normalisation of the content). -/
def setOffsetS {T : Type} (s : tree T) (n : Nat) (offset : Nat) :
    Option (tree T) :=
  modifyNode s n (fun nd => { nd with key := { nd.key with offset := offset } })

/-- `treeCursor.SetValueFrom` of part_002: copy `o`'s value to the cursor if
present. -/
def setValueFromS {T : Type} (s : tree T) (n : Nat) (sO : tree T) (nO : Nat) :
    tree T :=
  match mapGet sO.values nO with
  | some v => setValueS s n v
  | none => s

/-- `treeCursor.InsertParent` of part_002: set the cursor's offset to
`k.len`, allocate a node with key `k`, and attach the current node under it
via `setChild`; the returned cursor is positioned at `setChild`'s result. -/
def insertParentS {T : Type} (s : tree T) (n : Nat) (k : Key) :
    Option (tree T × Nat) :=
  match setOffsetS s n k.len with
  | none => none
  | some s1 =>
    let (s2, p) := newNodeS s1 k
    setChildS s2 p n

/-- `treeCursor.IsEmpty` of part_002. -/
def isEmptyS {T : Type} (s : tree T) (n : Nat) : Option Bool :=
  match readNode s n with
  | none => none
  | some nd => some (nd.key.isZero && nd.left == 0 && nd.right == 0)

/-! ## Recursive cursor methods (part_002)

Each method takes fuel; `none` is either fuel exhaustion or a Go panic
propagating up. -/

/-- `treeCursor.Insert` of part_002 (compressed insertion).  Returns the
state together with the reference the Go method's returned cursor points
at. -/
def insertF {T : Type} : Nat → tree T → Nat → Key → T → Option (tree T × Nat)
  | 0, _, _, _, _ => none
  | fuel + 1, s, n, k, v =>
    match readNode s n with
    | none => none
    | some nd =>
      let tKey := nd.key
      if tKey.equalFromRoot k then some (setValueS s n v, n)
      else
        let com := tKey.commonPrefixLen k
        if com == tKey.len then
          match cursorChildAt s n (k.bit tKey.len) with
          | none => none
          | some (c, ok) =>
            if ok then
              match insertF fuel s c k v with
              | none => none
              | some (s2, _) => some (s2, n)
            else
              match addChildS s n (k.rest tKey.len) with
              | none => none
              | some (s1, c1) =>
                let s2 := setValueS s1 c1 v
                match insertF fuel s2 c1 k v with
                | none => none
                | some (s3, _) => some (s3, n)
        else if com == k.len then
          match insertParentS s n k with
          | none => none
          | some (s1, p) => some (setValueS s1 p v, p)
        else
          match insertParentS s n (tKey.trunc com) with
          | none => none
          | some (s1, p) =>
            match addChildS s1 p (k.rest com) with
            | none => none
            | some (s2, c) => some (setValueS s2 c v, p)

/-- `treeCursor.InsertLazy` of part_002 (single-bit-per-node insertion). -/
def insertLazyF {T : Type} : Nat → tree T → Nat → Key → T →
    Option (tree T × Nat)
  | 0, _, _, _, _ => none
  | fuel + 1, s, n, k, v =>
    match readNode s n with
    | none => none
    | some nd =>
      let tKey := nd.key
      if tKey.equalFromRoot k then some (setValueS s n v, n)
      else if tKey.commonPrefixLen k == tKey.len then
        let b := k.bit tKey.len
        match cursorChildAt s n b with
        | none => none
        | some (c, ok) =>
          if ok then
            match insertLazyF fuel s c k v with
            | none => none
            | some (s2, _) => some (s2, n)
          else
            match addChildS s n (tKey.next b) with
            | none => none
            | some (s1, c1) =>
              match insertLazyF fuel s1 c1 k v with
              | none => none
              | some (s2, _) => some (s2, n)
      else some (s, n)

/-- `treeCursor.Compress` of part_002, as written: the left/right cursors
fall back to the current node when the child is absent, the `leftOk` case
fires even when both children exist, and the recursion continues on the
`right` cursor after copying the current offset onto it. -/
def compressF {T : Type} : Nat → tree T → Nat → Option (tree T × Nat)
  | 0, _, _ => none
  | fuel + 1, s, n =>
    match cursorChildAt s n bitL with
    | none => none
    | some (l, lOk) =>
      match cursorChildAt s n bitR with
      | none => none
      | some (r, rOk) =>
        if !lOk && !rOk then some (s, n)
        else if lOk then
          match readNode s n with
          | none => none
          | some nd =>
            match setOffsetS s r nd.key.offset with
            | none => none
            | some s2 => compressF fuel s2 r
        else if rOk then
          match readNode s n with
          | none => none
          | some nd =>
            match setOffsetS s l nd.key.offset with
            | none => none
            | some s2 => compressF fuel s2 l
        else some (s, n)

/-- `treeCursor.Remove` of part_002: exact removal with path compression;
returns the node reference that replaces the current node (0 for none). -/
def removeF {T : Type} [Inhabited T] : Nat → tree T → Nat → Key →
    Option (tree T × Nat)
  | 0, _, _, _ => none
  | fuel + 1, s, n, k =>
    match readNode s n with
    | none => none
    | some nd =>
      let tKey := nd.key
      if k.equalFromRoot tKey then
        match (if nd.hasEntry then clearEntryS s n else some s) with
        | none => none
        | some s1 =>
          match cursorChildAt s1 n bitL with
          | none => none
          | some (l, lOk) =>
            match cursorChildAt s1 n bitR with
            | none => none
            | some (r, rOk) =>
              if !lOk && !rOk then some (s1, 0)
              else if !lOk then
                match setOffsetS s1 r tKey.offset with
                | none => none
                | some s2 => some (s2, r)
              else if !rOk then
                match setOffsetS s1 l tKey.offset with
                | none => none
                | some s2 => some (s2, l)
              else some (s1, n)
      else if tKey.isPrefixOf k false then
        let b := k.bit tKey.len
        match cursorChildAt s n b with
        | none => none
        | some (c, ok) =>
          if ok then
            match removeF fuel s c k with
            | none => none
            | some (s1, repl) =>
              match setChildAtS s1 b n repl with
              | none => none
              | some s2 => some (s2, n)
          else some (s, n)
      else some (s, n)

/-- `treeCursor.insertHole` of part_002: clear the entry along the path to
`k`, creating the missing sibling (carrying `v`) at each level.  As written,
the path-side child cursor is read before the sibling is created and falls
back to the current node itself when absent. -/
def insertHoleF {T : Type} [Inhabited T] : Nat → tree T → Nat → Key → T →
    Option (tree T × Nat)
  | 0, _, _, _, _ => none
  | fuel + 1, s, n, k, v =>
    match readNode s n with
    | none => none
    | some nd =>
      let tKey := nd.key
      if tKey.equalFromRoot k then some (s, 0)
      else if tKey.isPrefixOf k false then
        match clearEntryS s n with
        | none => none
        | some s1 =>
          let b := k.bit tKey.len
          match cursorChildAt s1 n b with
          | none => none
          | some (child, _) =>
            match cursorChildAt s1 n (inv b) with
            | none => none
            | some (_, siblingOk) =>
              let afterSib :=
                if !siblingOk then
                  match addChildS s1 n (tKey.next (inv b)) with
                  | none => none
                  | some (s2, c2) => some (setValueS s2 c2 v)
                else some s1
              match afterSib with
              | none => none
              | some s3 =>
                match insertHoleF fuel s3 child k v with
                | none => none
                | some (s4, repl) =>
                  match setChildS s4 n repl with
                  | none => none
                  | some (s5, _) => some (s5, n)
      else some (s, n)

/-- `treeCursor.SubtractKey` of part_002: remove `k` and all of its
descendants; when the path child is missing but the node's value is present,
punch a hole via `insertHole`. -/
def subtractKeyF {T : Type} [Inhabited T] : Nat → tree T → Nat → Key →
    Option (tree T × Nat)
  | 0, _, _, _ => none
  | fuel + 1, s, n, k =>
    match readNode s n with
    | none => none
    | some nd =>
      let tKey := nd.key
      if tKey.equalFromRoot k || k.isPrefixOf tKey false then some (s, 0)
      else if tKey.isPrefixOf k false then
        let b := k.bit tKey.len
        match cursorChildAt s n b with
        | none => none
        | some (c, ok) =>
          let afterRec :=
            if ok then
              match subtractKeyF fuel s c (k.rest tKey.len) with
              | none => none
              | some (s1, repl) => setChildAtS s1 b n repl
            else
              match mapGet s.values n with
              | some v =>
                match insertHoleF fuel s n k v with
                | none => none
                | some (s1, _) => some s1
              | none => some s
          match afterRec with
          | none => none
          | some s2 =>
            match readNode s2 n with
            | none => none
            | some nd2 =>
              if nd2.right == 0 && nd2.left == 0 && !nd2.hasEntry then
                some (s2, 0)
              else some (s2, n)
      else some (s, n)

/-- `treeCursor.CopyFrom` of part_002: the explicit-stack deep copy from a
cursor of the source tree onto a cursor of the destination tree.  `SetNode`
writes a node with zero children, so a source child always forces
`NewChildAt` (a fresh zero-key node handed to `setChild`). -/
def copyFromS {T : Type} : Nat → tree T → tree T → List (Nat × Nat) →
    Option (tree T)
  | 0, _, _, _ => none
  | fuel + 1, sT, sO, stack =>
    match stack with
    | [] => some sT
    | (srcR, dstR) :: rest =>
      match readNode sO srcR with
      | none => none
      | some srcNd =>
        match setNodeS sT dstR ⟨srcNd.key, srcNd.hasEntry, 0, 0⟩ with
        | none => none
        | some s1 =>
          let s2 :=
            match mapGet sO.values srcR with
            | some v => setValueS s1 dstR v
            | none => s1
          -- bit L
          let stepL : Option (tree T × List (Nat × Nat)) :=
            if srcNd.left == 0 then some (s2, rest)
            else
              match cursorChildAt s2 dstR bitL with
              | none => none
              | some (dc, dOk) =>
                if dOk then some (s2, (srcNd.left, dc) :: rest)
                else
                  let (s3, fresh) := newNodeS s2 zeroKey
                  match setChildS s3 dstR fresh with
                  | none => none
                  | some (s4, dc2) => some (s4, (srcNd.left, dc2) :: rest)
          match stepL with
          | none => none
          | some (s5, stack1) =>
            let stepR : Option (tree T × List (Nat × Nat)) :=
              if srcNd.right == 0 then some (s5, stack1)
              else
                match cursorChildAt s5 dstR bitR with
                | none => none
                | some (dc, dOk) =>
                  if dOk then some (s5, (srcNd.right, dc) :: stack1)
                  else
                    let (s6, fresh) := newNodeS s5 zeroKey
                    match setChildS s6 dstR fresh with
                    | none => none
                    | some (s7, dc2) => some (s7, (srcNd.right, dc2) :: stack1)
            match stepR with
            | none => none
            | some (s8, stack2) => copyFromS fuel s8 sO stack2

/-- `treeCursor.MergeTree` of part_002: union of the entries of `t` and the
read-only tree `o`.  When `t` lacks a child present in `o`, the fallback
cursor returned by `ChildAt` points at the current node, and the
`CopyFrom` in the else-branch overwrites that node in place. -/
def mergeTreeF {T : Type} : Nat → tree T → Nat → tree T → Nat →
    Option (tree T × Nat)
  | 0, _, _, _, _ => none
  | fuel + 1, sT, nT, sO, nO =>
    match isEmptyS sO nO with
    | none => none
    | some oEmpty =>
      if oEmpty then some (sT, nT)
      else
        match readNode sT nT, readNode sO nO with
        | none, _ => none
        | _, none => none
        | some tNd, some oNd =>
          let tKey := tNd.key
          let oKey := oNd.key
          if tKey.equalFromRoot oKey then
            let s0 := if !tNd.hasEntry then setValueFromS sT nT sO nO else sT
            -- children loop, bit L then bit R
            let stepBit : tree T → Nat → Option (tree T) := fun s b =>
              match childAtRef sO nO b with
              | none => none
              | some oc =>
                if oc == 0 then some s
                else
                  match cursorChildAt s nT b with
                  | none => none
                  | some (tc, _) =>
                    match mergeTreeF fuel s tc sO oc with
                    | none => none
                    | some (s1, r) =>
                      match setChildS s1 nT r with
                      | none => none
                      | some (s2, _) => some s2
            match stepBit s0 bitL with
            | none => none
            | some s1 =>
              match stepBit s1 bitR with
              | none => none
              | some s2 => some (s2, nT)
          else
            let com := tKey.commonPrefixLen oKey
            if com == tKey.len then
              match cursorChildAt sT nT (oKey.bit tKey.len) with
              | none => none
              | some (tc, ok) =>
                if ok then
                  match mergeTreeF fuel sT tc sO nO with
                  | none => none
                  | some (s1, r) =>
                    match setChildS s1 nT r with
                    | none => none
                    | some (s2, _) => some (s2, nT)
                else
                  match copyFromS fuel sT sO [(nO, tc)] with
                  | none => none
                  | some s1 =>
                    match setOffsetS s1 tc tKey.len with
                    | none => none
                    | some s2 => some (s2, nT)
            else if com == oKey.len then
              match insertParentS sT nT oKey with
              | none => none
              | some (s1, p) =>
                let s2 := setValueFromS s1 p sO nO
                mergeTreeF fuel s2 p sO nO
            else
              match insertParentS sT nT (tKey.trunc com) with
              | none => none
              | some (s1, p) =>
                match addChildS s1 p (oKey.rest com) with
                | none => none
                | some (s2, c) => some (setValueFromS s2 c sO nO, p)

/-- `treeCursor.intersectTreeImpl` of part_002, with the two ancestor-entry
flags.  The `tRemove`/`tChild` cursors fall back to the current node when the
child is absent, exactly as `ChildAt` returns them. -/
def intersectImplF {T : Type} [Inhabited T] : Nat → tree T → Nat → tree T →
    Nat → Bool → Bool → Option (tree T × Nat)
  | 0, _, _, _, _, _, _ => none
  | fuel + 1, sT, nT, sO, nO, tPath, oPath =>
    match isEmptyS sO nO with
    | none => none
    | some oEmpty =>
      if oEmpty then
        match setNodeS sT nT nodeZero with
        | none => none
        | some s1 => some (s1, nT)
      else
        match readNode sT nT, readNode sO nO with
        | none, _ => none
        | _, none => none
        | some tNd, some oNd =>
          let tKey := tNd.key
          let oKey := oNd.key
          if tKey.equalFromRoot oKey then
            let cleared := tNd.hasEntry && !(oNd.hasEntry || oPath)
            let afterClear :=
              if cleared then clearEntryS sT nT else some sT
            match afterClear with
            | none => none
            | some s0 =>
              let tPath1 := if cleared then true else tPath
              -- children loop, bit L then bit R; conditions re-read the
              -- current entry flags from the state each iteration
              let stepBit : tree T → Nat → Option (tree T) := fun s b =>
                match readNode s nT with
                | none => none
                | some tNow =>
                  let tc := if b == bitR then tNow.right else tNow.left
                  let tOk := !(tc == 0)
                  let tcur := if tc == 0 then nT else tc
                  let oc := if b == bitR then oNd.right else oNd.left
                  let oOk := !(oc == 0)
                  if !tOk && oOk && (tNow.hasEntry || tPath1) then
                    copyFromS fuel s sO [(oc, tcur)]
                  else if tOk && !oOk && !(oNd.hasEntry || oPath) then
                    setNodeS s tcur nodeZero
                  else if tOk && oOk then
                    match intersectImplF fuel s tcur sO oc
                        (tNow.hasEntry || tPath1) (oNd.hasEntry || oPath) with
                    | none => none
                    | some (s1, r) =>
                      match setChildS s1 nT r with
                      | none => none
                      | some (s2, _) => some s2
                  else some s
              match stepBit s0 bitL with
              | none => none
              | some s1 =>
                match stepBit s1 bitR with
                | none => none
                | some s2 => some (s2, nT)
          else
            let com := tKey.commonPrefixLen oKey
            if com == tKey.len then
              let afterEntry : Option (tree T) :=
                if tNd.hasEntry then
                  let afterClear :=
                    if !oPath then clearEntryS sT nT else some sT
                  match afterClear with
                  | none => none
                  | some s1 =>
                    match mapGet sO.values nO with
                    | some v =>
                      match insertF fuel s1 nT oKey v with
                      | none => none
                      | some (s2, _) => some s2
                    | none => some s1
                else some sT
              match afterEntry with
              | none => none
              | some s3 =>
                let b := oKey.bit com
                match cursorChildAt s3 nT b with
                | none => none
                | some (tFollow, tFollowOk) =>
                  match cursorChildAt s3 nT (inv b) with
                  | none => none
                  | some (tRemove, _) =>
                    match readNode s3 nT with
                    | none => none
                    | some tNow =>
                      let afterFollow :=
                        if tFollowOk then
                          match intersectImplF fuel s3 tFollow sO nO
                              (tNow.hasEntry || tPath)
                              (oNd.hasEntry || oPath) with
                          | none => none
                          | some (s4, r) =>
                            match setChildS s4 nT r with
                            | none => none
                            | some (s5, _) => some s5
                        else some s3
                      match afterFollow with
                      | none => none
                      | some s6 =>
                        let afterRemove :=
                          if !oPath then setNodeS s6 tRemove nodeZero
                          else some s6
                        match afterRemove with
                        | none => none
                        | some s7 => some (s7, nT)
            else if com == oKey.len then
              match cursorChildAt sO nO (tKey.bit com) with
              | none => none
              | some (oFollow, oOk) =>
                if oOk then
                  match intersectImplF fuel sT nT sO oFollow
                      (tNd.hasEntry || tPath) (oNd.hasEntry || oPath) with
                  | none => none
                  | some (s1, r) =>
                    match setChildS s1 nT r with
                    | none => none
                    | some (s2, _) => some (s2, nT)
                else some (sT, nT)
            else
              match setNodeS sT nT nodeZero with
              | none => none
              | some s1 => some (s1, nT)

/-- `treeCursor.IntersectTree` of part_002. -/
def intersectTreeF {T : Type} [Inhabited T] (fuel : Nat) (sT : tree T)
    (nT : Nat) (sO : tree T) (nO : Nat) : Option (tree T × Nat) :=
  intersectImplF fuel sT nT sO nO false false

/-! ## walk and the derived queries (part_002) -/

/-- the path-following loop of `treeCursor.walk`: visit (call `fn` on) every
node with a non-zero key while descending along `path`; the result is the
visit sequence together with the final cursor and the loop's exit flag
(`true` means `fn` returned true and the whole walk returns). -/
def walkPathF {T : Type} : Nat → tree T → Nat → Key → (node → Bool) →
    List node → Option (List node × Nat × Bool)
  | 0, _, _, _, _, _ => none
  | fuel + 1, s, n, path, fn, acc =>
    match readNode s n with
    | none => none
    | some nd =>
      let acc2 := if nd.key.isZero then acc else acc ++ [nd]
      if !nd.key.isZero && fn nd then some (acc2, n, true)
      else
        -- pathNext: ChildAt(path.bit(t.Key().len))
        let c := if path.bit nd.key.len == bitR then nd.right else nd.left
        if c == 0 then some (acc2, n, false)
        else walkPathF fuel s c path fn acc2

/-- the depth-first phase of `treeCursor.walk`: pop a node, visit it if its
key is non-zero, and push its right then left children (left on top) unless
`fn` stopped this subtree or the key is full length. -/
def walkDFSF {T : Type} : Nat → tree T → List Nat → (node → Bool) →
    List node → Option (List node)
  | 0, _, _, _, _ => none
  | fuel + 1, s, stack, fn, acc =>
    match stack with
    | [] => some acc
    | n :: rest =>
      match readNode s n with
      | none => none
      | some nd =>
        let acc2 := if nd.key.isZero then acc else acc ++ [nd]
        let stop := if nd.key.isZero then false else fn nd
        if decide (nd.key.len < 128) && !stop then
          let afterR := if nd.right == 0 then rest else nd.right :: rest
          let afterL := if nd.left == 0 then afterR else nd.left :: afterR
          walkDFSF fuel s afterL fn acc2
        else walkDFSF fuel s rest fn acc2

/-- `treeCursor.walk` of part_002, as written: after the path loop the local
`ok` flag is necessarily false (the loop only exits when `pathNext` fails),
and the `if !ok { return }` that follows therefore always returns before the
depth-first phase. -/
def walkF {T : Type} (fuel : Nat) (s : tree T) (n : Nat) (path : Key)
    (fn : node → Bool) : Option (List node) :=
  match walkPathF fuel s n path fn [] with
  | none => none
  | some (acc, last, early) =>
    if early then some acc
    else
      let ok := false
      if !ok then some acc
      else walkDFSF fuel s [last] fn acc

/-- `treeCursor.Contains` of part_002: follow the path of `k`, reporting true
iff a visited node with a non-zero key equals `k` from the root and has an
entry. -/
def containsF {T : Type} : Nat → tree T → Nat → Key → Option Bool
  | 0, _, _, _ => none
  | fuel + 1, s, n, k =>
    match readNode s n with
    | none => none
    | some nd =>
      if !nd.key.isZero && (nd.key.equalFromRoot k && nd.hasEntry) then
        some true
      else
        let c := if k.bit nd.key.len == bitR then nd.right else nd.left
        if c == 0 then some false
        else containsF fuel s c k

/-- `treeCursor.Size` of part_002: the number of nodes with `hasEntry`. -/
def sizeF {T : Type} : Nat → tree T → Nat → Option Nat
  | 0, _, _ => none
  | fuel + 1, s, n =>
    match readNode s n with
    | none => none
    | some nd =>
      let here := if nd.hasEntry then 1 else 0
      let goL : Option Nat :=
        if nd.left == 0 then some 0 else sizeF fuel s nd.left
      match goL with
      | none => none
      | some a =>
        let goR : Option Nat :=
          if nd.right == 0 then some 0 else sizeF fuel s nd.right
        match goR with
        | none => none
        | some b => some (here + a + b)

/-! ## Builder facade (part_000) -/

/-- netip.Prefix, modelled from the spec: the IP prefix value type is an
external collaborator, of which only the validity predicate and the
16-byte-address/bit-length image under `keyFromPrefix` are consumed.  `valid`
is `p.IsValid()` and `key` is the key image of the prefix. -/
structure Pfx where
  valid : Bool
  key : Key
deriving Repr, DecidableEq

/-- outcome of one builder mutation: the builder's tree afterwards (`none`
is a Go panic during the mutation) and whether an error was returned. -/
structure OpResult (T : Type) where
  state : Option (tree T)
  err : Bool
deriving Repr, DecidableEq

/-- `PrefixSetBuilder.Add` of part_000: an invalid prefix yields an error and
no mutation; otherwise the key is inserted with the lazy or compressed path
according to the `Lazy` flag. -/
def builderAdd (lazy : Bool) (fuel : Nat) (s : tree Bool) (p : Pfx) :
    OpResult Bool :=
  if !p.valid then ⟨some s, true⟩
  else if lazy then ⟨(insertLazyF fuel s 0 p.key true).map Prod.fst, false⟩
  else ⟨(insertF fuel s 0 p.key true).map Prod.fst, false⟩

/-- `PrefixSetBuilder.Remove` of part_000: an invalid prefix yields an error
and no mutation; otherwise the exact key is removed (the replacement
reference returned by the tree method is discarded). -/
def builderRemove (fuel : Nat) (s : tree Bool) (p : Pfx) : OpResult Bool :=
  if !p.valid then ⟨some s, true⟩
  else ⟨(removeF fuel s 0 p.key).map Prod.fst, false⟩

/-- `PrefixSetBuilder.SubtractPrefix` of part_000: an invalid prefix yields
an error and no mutation; otherwise the key and its descendants are
subtracted. -/
def builderSubtractPfx (fuel : Nat) (s : tree Bool) (p : Pfx) :
    OpResult Bool :=
  if !p.valid then ⟨some s, true⟩
  else ⟨(subtractKeyF fuel s 0 p.key).map Prod.fst, false⟩

/-- Modelled from the spec: `PrefixMapBuilder.Set` (the map builder file is
not part of the snapshot): same shape as `Add` — an invalid prefix yields an
error and no mutation, otherwise the value is inserted at the prefix's
key. -/
def builderSet {T : Type} (fuel : Nat) (s : tree T) (p : Pfx) (v : T) :
    OpResult T :=
  if !p.valid then ⟨some s, true⟩
  else ⟨(insertF fuel s 0 p.key v).map Prod.fst, false⟩

/-! ## Concrete keys and tree states used by the claims -/

/-- the key of ::1/128 (only the last bit set). -/
def k0001 : Key := ⟨1, 0, 128⟩

/-- the key of ::/128 (all 128 bits zero). -/
def kZeros128 : Key := ⟨0, 0, 128⟩

/-- the key of ::/126. -/
def kZeros126 : Key := ⟨0, 0, 126⟩

/-- the key of ::2/127. -/
def k2_127 : Key := ⟨2, 126, 127⟩

/-- the key of ::/1 (first bit 0). -/
def kLeft1 : Key := ⟨0, 0, 1⟩

/-- the key of 8000::/1 (first bit 1). -/
def kRight1 : Key := ⟨2 ^ 127, 0, 1⟩

/-- the key of ::/2. -/
def kLeft2 : Key := ⟨0, 0, 2⟩

/-- a fresh presence-only tree (`newTree[bool]`). -/
def emptyBool : tree Bool := newTreeT Bool

/-- a fresh value-bearing tree (`newTree[T]` at a numeric value type). -/
def emptyNat : tree Nat := newTreeT Nat

/-- the set {::/1}: root with a left child carrying an entry, as a
well-formed arena state (entry flag and value in agreement). -/
def sLeft : tree Bool :=
  ⟨[⟨zeroKey, false, 1, 0⟩, ⟨kLeft1, true, 0, 0⟩], [(1, true)]⟩

/-- the set {8000::/1}: root with a right child carrying an entry. -/
def sRight : tree Bool :=
  ⟨[⟨zeroKey, false, 0, 1⟩, ⟨kRight1, true, 0, 0⟩], [(1, true)]⟩

/-- the set {::/2}: root with a left child ::/2 carrying an entry. -/
def sLeft2 : tree Bool :=
  ⟨[⟨zeroKey, false, 1, 0⟩, ⟨kLeft2, true, 0, 0⟩], [(1, true)]⟩

/-- the set {::/1, 8000::/1}: root with both one-bit children carrying
entries. -/
def sBoth : tree Bool :=
  ⟨[⟨zeroKey, false, 1, 2⟩, ⟨kLeft1, true, 0, 0⟩, ⟨kRight1, true, 0, 0⟩],
    [(1, true), (2, true)]⟩

/-- a lazily built chain: the root has a single (left) child and no right
child, the shape produced by one lazy insertion of a key starting with bit
0. -/
def sChain : tree Bool :=
  ⟨[⟨zeroKey, false, 1, 0⟩, ⟨kLeft1, true, 0, 0⟩], [(1, true)]⟩

/-- the set {::/126}: root with a left child ::/126 carrying an entry. -/
def sSub : tree Bool :=
  ⟨[⟨zeroKey, false, 1, 0⟩, ⟨kZeros126, true, 0, 0⟩], [(1, true)]⟩

/-! ## General lemmas about the traversals -/

/-- The path phase of `walk` only ever passes nodes with a non-zero key to
the callback: every element of the visit list is either carried over from
the accumulator or has a non-zero key. -/
theorem walkPathF_visits_nonzero {T : Type} :
    ∀ (fuel : Nat) (s : tree T) (n : Nat) (path : Key) (fn : node → Bool)
      (acc visited : List node) (last : Nat) (e : Bool),
      (∀ nd ∈ acc, nd.key.isZero = false) →
      walkPathF fuel s n path fn acc = some (visited, last, e) →
      ∀ nd ∈ visited, nd.key.isZero = false := by
  intro fuel
  induction fuel with
  | zero =>
    intro s n path fn acc visited last e hacc h
    simp [walkPathF] at h
  | succ m ih =>
    intro s n path fn acc visited last e hacc h
    rw [walkPathF] at h
    cases hr : readNode s n with
    | none => rw [hr] at h; exact absurd h (by simp)
    | some nd =>
      rw [hr] at h
      simp only at h
      have hacc2 : ∀ nd2 ∈ (if nd.key.isZero then acc else acc ++ [nd]),
          nd2.key.isZero = false := by
        by_cases hz : nd.key.isZero
        · simpa [hz] using hacc
        · intro nd2 hnd2
          rw [if_neg hz, List.mem_append, List.mem_singleton] at hnd2
          rcases hnd2 with h1 | h1
          · exact hacc nd2 h1
          · subst h1; exact Bool.not_eq_true _ ▸ (by simpa using hz)
      by_cases hstop : (!nd.key.isZero && fn nd) = true
      · rw [if_pos hstop] at h
        have h1 : (if nd.key.isZero = true then acc else acc ++ [nd]) =
            visited := congrArg Prod.fst (Option.some.inj h)
        exact h1 ▸ hacc2
      · rw [if_neg hstop] at h
        by_cases hc :
            (if path.bit nd.key.len == bitR then nd.right else nd.left) = 0
        · rw [if_pos (by simpa using hc)] at h
          have h1 : (if nd.key.isZero = true then acc else acc ++ [nd]) =
              visited := congrArg Prod.fst (Option.some.inj h)
          exact h1 ▸ hacc2
        · rw [if_neg (by simpa using hc)] at h
          exact ih s _ path fn _ visited last e hacc2 h

/-- The depth-first phase of `walk` only ever passes nodes with a non-zero
key to the callback. -/
theorem walkDFSF_visits_nonzero {T : Type} :
    ∀ (fuel : Nat) (s : tree T) (stack : List Nat) (fn : node → Bool)
      (acc visited : List node),
      (∀ nd ∈ acc, nd.key.isZero = false) →
      walkDFSF fuel s stack fn acc = some visited →
      ∀ nd ∈ visited, nd.key.isZero = false := by
  intro fuel
  induction fuel with
  | zero =>
    intro s stack fn acc visited hacc h
    simp [walkDFSF] at h
  | succ m ih =>
    intro s stack fn acc visited hacc h
    cases stack with
    | nil =>
      rw [walkDFSF] at h
      obtain h1 := Option.some.inj h
      exact h1 ▸ hacc
    | cons n rest =>
      rw [walkDFSF] at h
      cases hr : readNode s n with
      | none => rw [hr] at h; exact absurd h (by simp)
      | some nd =>
        rw [hr] at h
        simp only at h
        have hacc2 : ∀ nd2 ∈ (if nd.key.isZero then acc else acc ++ [nd]),
            nd2.key.isZero = false := by
          by_cases hz : nd.key.isZero
          · simpa [hz] using hacc
          · intro nd2 hnd2
            rw [if_neg hz, List.mem_append, List.mem_singleton] at hnd2
            rcases hnd2 with h1 | h1
            · exact hacc nd2 h1
            · subst h1; simpa using hz
        by_cases hpush :
            (decide (nd.key.len < 128) &&
              !(if nd.key.isZero then false else fn nd)) = true
        · rw [if_pos hpush] at h
          exact ih s _ fn _ visited hacc2 h
        · rw [if_neg hpush] at h
          exact ih s rest fn _ visited hacc2 h

/-- `Contains` never reports a zero-length key: the zero-key guard skips the
only nodes whose keys could equal it. -/
theorem containsF_len_zero {T : Type} :
    ∀ (fuel : Nat) (s : tree T) (n : Nat) (k : Key), k.len = 0 →
      containsF fuel s n k ≠ some true := by
  intro fuel
  induction fuel with
  | zero => intro s n k hk; simp [containsF]
  | succ m ih =>
    intro s n k hk
    rw [containsF]
    cases hr : readNode s n with
    | none => simp
    | some nd =>
      simp only
      have hcond : (!nd.key.isZero &&
          (nd.key.equalFromRoot k && nd.hasEntry)) = false := by
        by_cases hz : nd.key.len = 0
        · have : nd.key.isZero = true := by
            simp [Key.isZero, hz]
          simp [this]
        · have : nd.key.equalFromRoot k = false := by
            simp only [Key.equalFromRoot, hk]
            have : (nd.key.len == 0) = false := by
              simpa using hz
            simp [this]
          simp [this]
      rw [hcond]
      simp only [Bool.false_eq_true, if_false]
      by_cases hc : (if k.bit nd.key.len == bitR then nd.right else nd.left) = 0
      · rw [if_pos (by simpa using hc)]
        simp
      · rw [if_neg (by simpa using hc)]
        exact ih s _ k hk

/-! ## Claim theorems -/

/-- the tree state produced by inserting the value 7 at the zero key into a
fresh value-bearing tree. -/
def c1State : tree Nat := ⟨[nodeZero], [(0, 7)]⟩

/-- C1: the claim says that immediately after `Insert(k, v)` the node at key
`k` has `hasEntry` true and holds `v`, and that entry presence and value
presence are equivalent.  In the code, `Insert` stores the value through
`setValue`, which never sets `hasEntry`: after inserting at the zero key (the
one insertion that does not panic in `newNode`), the node holds the value but
its `hasEntry` flag is still false, so presence and value diverge. -/
theorem c1_insert_stores_value_without_entry :
    insertF 5 emptyNat 0 zeroKey 7 = some (c1State, 0) ∧
    readNode c1State 0 = some nodeZero ∧
    nodeZero.hasEntry = false ∧
    mapGet c1State.values 0 = some 7 :=
  ⟨rfl, rfl, rfl, rfl⟩

/-- C2: the claim says that after the path phase `walk` performs a
depth-first traversal of all remaining descendants.  In the code the path
loop can only exit with `ok == false`, so the `if !ok { return }` that
follows always returns and the DFS phase is dead code: walking
{::/1, 8000::/1} from the root with the zero path visits only the left
child, and the right node — present with an entry — is never passed to the
callback. -/
theorem c2_walk_dead_dfs :
    walkF 20 sBoth 0 zeroKey (fun _ => false) =
      some [⟨kLeft1, true, 0, 0⟩] ∧
    readNode sBoth 2 = some ⟨kRight1, true, 0, 0⟩ ∧
    (⟨kRight1, true, 0, 0⟩ : node) ∉ [(⟨kLeft1, true, 0, 0⟩ : node)] :=
  ⟨rfl, rfl, by decide⟩

/-- C3: the claim says `Compress` merges entry-free single-child nodes and
leaves every entry-free node with two children.  In the code, when a node
has a left child and no right child, the `right` cursor returned by
`ChildAt` falls back to the node itself, the `leftOk` case copies the offset
onto it and recurses on it, and `Compress` therefore calls itself forever on
the same state: on a root with a single left child it returns for no amount
of fuel. -/
theorem c3_compress_self_recursion :
    ∀ fuel, compressF fuel sChain 0 = none := by
  intro fuel
  induction fuel with
  | zero => rfl
  | succ m ih => exact (rfl : compressF (m + 1) sChain 0 =
      compressF m sChain 0) ▸ ih

/-- C4: the claim (and the spec's worked example) says that subtracting
::/128 from {::/126} yields {::1/128, ::2/127} with size 2.  In the code
the hole-punching path panics: `insertHole` calls `AddChild` for the
missing sibling, `newNode` returns a reference one past the end of the
arena, and `setChild` reads that node — an index-out-of-range panic for
every fuel. -/
theorem c4_subtract_hole_panics :
    ∀ fuel, builderSubtractPfx (fuel + 2) sSub ⟨true, kZeros128⟩ =
      ⟨none, false⟩ := by
  intro fuel
  cases fuel with
  | zero => rfl
  | succ m => rfl

/-- C5: the claim says the lazy and the compressed build paths produce
frozen views with identical `Prefixes()` sequences for every input
multiset.  In the code neither path can even insert one non-zero key: both
`Insert` and `InsertLazy` reach `AddChild`, whose fresh node reference (one
past the end of the arena) is dereferenced by `setChild` — both builds
panic on the singleton multiset {::1/128} and no view is produced. -/
theorem c5_both_insert_paths_panic :
    ∀ fuel, builderAdd false (fuel + 1) emptyBool ⟨true, k0001⟩ =
        ⟨none, false⟩ ∧
      builderAdd true (fuel + 1) emptyBool ⟨true, k0001⟩ = ⟨none, false⟩ := by
  intro fuel
  exact ⟨rfl, rfl⟩

/-- C6: the claim says a prefix is in the intersection when it is in one
set and has a strict ancestor entry in the other; the spec's own scenario
has B = {::/2} under A = {::/1} with intersection {::/2}.  In the code that
very case panics: `intersectTreeImpl` reaches the `tKey`-prefix-of-`oKey`
branch and calls `Insert(oKey, val)` on a node without the needed child, so
`AddChild`/`newNode`/`setChild` dereference an out-of-range reference. -/
theorem c6_intersect_panics :
    ∀ fuel, intersectTreeF (fuel + 2) sLeft 0 sLeft2 0 = none := by
  intro fuel
  cases fuel with
  | zero => rfl
  | succ m => rfl

/-- the tree state produced by merging {8000::/1} into {::/1}. -/
def sMerged : tree Bool :=
  ⟨[⟨kRight1, true, 0, 0⟩, ⟨kLeft1, true, 0, 0⟩], [(1, true), (0, true)]⟩

/-- C7: the claim says `Merge(A, B)` contains the union of the two prefix
sets.  In the code, when `t` lacks the child on `o`'s side, the fallback
cursor returned by `ChildAt` points at `t`'s current node and the
`CopyFrom` in the else-branch of `MergeTree` overwrites that node in place:
merging {8000::/1} into {::/1} overwrites the root with the 8000::/1 node,
unlinking the ::/1 child, so the result no longer contains ::/1 even though
`A` did. -/
theorem c7_merge_loses_member :
    mergeTreeF 30 sLeft 0 sRight 0 = some (sMerged, 0) ∧
    containsF 30 sLeft 0 kLeft1 = some true ∧
    containsF 30 sRight 0 kRight1 = some true ∧
    containsF 30 sMerged 0 kLeft1 = some false ∧
    containsF 30 sMerged 0 kRight1 = some true :=
  ⟨rfl, rfl, rfl, rfl, rfl⟩

/-- the builder state after adding the prefix ::/0 to a fresh set builder. -/
def c8State : tree Bool := ⟨[nodeZero], [(0, true)]⟩

/-- C8: the claim says adding then removing a prefix yields `Contains ==
false` and a tree equal, up to compression, to the never-added one.  For
::/0 — the only prefix whose addition does not panic — `Add` stores the
value without setting `hasEntry`, so `Remove` skips its `ClearEntry` (it is
guarded by `HasEntry`) and the stored value survives: the round-tripped
state differs from the fresh builder, both are fixed points of `Compress`,
and the difference is precisely the retained value at the root. -/
theorem c8_roundtrip_leaves_residue :
    builderAdd false 5 emptyBool ⟨true, zeroKey⟩ = ⟨some c8State, false⟩ ∧
    builderRemove 5 c8State ⟨true, zeroKey⟩ = ⟨some c8State, false⟩ ∧
    containsF 5 c8State 0 zeroKey = some false ∧
    mapGet c8State.values 0 = some true ∧
    mapGet emptyBool.values 0 = none ∧
    compressF 5 c8State 0 = some (c8State, 0) ∧
    compressF 5 emptyBool 0 = some (emptyBool, 0) ∧
    c8State ≠ emptyBool :=
  ⟨rfl, rfl, rfl, rfl, rfl, rfl, rfl, by decide⟩

/-- C9: among the builder operations, `Add`, `Set`, `Remove` and
`SubtractPrefix` return an error exactly when the prefix argument is
invalid, and a failed mutation leaves the builder state unchanged (the
validity check precedes any tree access). -/
theorem c9_error_surface :
    ∀ (fuel : Nat) (lazy : Bool) (s : tree Bool) (sN : tree Nat) (p : Pfx)
      (v : Nat),
      ((builderAdd lazy fuel s p).err = true ↔ p.valid = false) ∧
      (p.valid = false → builderAdd lazy fuel s p = ⟨some s, true⟩) ∧
      ((builderRemove fuel s p).err = true ↔ p.valid = false) ∧
      (p.valid = false → builderRemove fuel s p = ⟨some s, true⟩) ∧
      ((builderSubtractPfx fuel s p).err = true ↔ p.valid = false) ∧
      (p.valid = false → builderSubtractPfx fuel s p = ⟨some s, true⟩) ∧
      ((builderSet fuel sN p v).err = true ↔ p.valid = false) ∧
      (p.valid = false → builderSet fuel sN p v = ⟨some sN, true⟩) := by
  intro fuel lazy s sN p v
  cases hv : p.valid with
  | false =>
    cases lazy with
    | false =>
      refine ⟨?_, ?_, ?_, ?_, ?_, ?_, ?_, ?_⟩ <;>
        simp [builderAdd, builderRemove, builderSubtractPfx, builderSet, hv]
    | true =>
      refine ⟨?_, ?_, ?_, ?_, ?_, ?_, ?_, ?_⟩ <;>
        simp [builderAdd, builderRemove, builderSubtractPfx, builderSet, hv]
  | true =>
    cases lazy with
    | false =>
      refine ⟨?_, ?_, ?_, ?_, ?_, ?_, ?_, ?_⟩ <;>
        simp [builderAdd, builderRemove, builderSubtractPfx, builderSet, hv]
    | true =>
      refine ⟨?_, ?_, ?_, ?_, ?_, ?_, ?_, ?_⟩ <;>
        simp [builderAdd, builderRemove, builderSubtractPfx, builderSet, hv]

/-- witness for C9 at a concrete invalid prefix: it is rejected with an
error and the builder state is untouched. -/
theorem c9_error_surface_witness :
    (builderAdd false 3 emptyBool ⟨false, zeroKey⟩).err = true ∧
    builderRemove 3 emptyBool ⟨false, zeroKey⟩ = ⟨some emptyBool, true⟩ := by
  have h := c9_error_surface 3 false emptyBool emptyNat ⟨false, zeroKey⟩ 7
  exact ⟨h.1.mpr rfl, h.2.2.2.1 rfl⟩

/-- C10: both traversal phases of `walk` pass only nodes with a non-zero key
to the callback, and `Contains` never reports a zero-length key: an entry at
the zero key is invisible to every derived query. -/
theorem c10_zero_key_invisible :
    (∀ (fuel : Nat) (s : tree Bool) (n : Nat) (path : Key)
        (fn : node → Bool) (visited : List node),
        walkF fuel s n path fn = some visited →
        ∀ nd ∈ visited, nd.key.isZero = false) ∧
    (∀ (fuel : Nat) (s : tree Bool) (stack : List Nat) (fn : node → Bool)
        (visited : List node),
        walkDFSF fuel s stack fn [] = some visited →
        ∀ nd ∈ visited, nd.key.isZero = false) ∧
    (∀ (fuel : Nat) (s : tree Bool) (n : Nat) (k : Key), k.len = 0 →
        containsF fuel s n k ≠ some true) := by
  refine ⟨?_, ?_, ?_⟩
  · intro fuel s n path fn visited h
    rw [walkF] at h
    cases hp : walkPathF fuel s n path fn [] with
    | none => rw [hp] at h; exact absurd h (by simp)
    | some r =>
      obtain ⟨acc, last, early⟩ := r
      rw [hp] at h
      have hbase : ∀ nd ∈ ([] : List node), nd.key.isZero = false := by
        intro nd hnd; simp at hnd
      cases early with
      | true =>
        simp only [if_pos rfl] at h
        have hv := Option.some.inj h
        exact hv ▸ walkPathF_visits_nonzero fuel s n path fn [] acc last
          true hbase hp
      | false =>
        simp only [Bool.false_eq_true, if_false, Bool.not_false,
          if_pos rfl] at h
        have hv := Option.some.inj h
        exact hv ▸ walkPathF_visits_nonzero fuel s n path fn [] acc last
          false hbase hp
  · intro fuel s stack fn visited h
    exact walkDFSF_visits_nonzero fuel s stack fn [] visited
      (by intro nd hnd; simp at hnd) h
  · intro fuel s n k hk
    exact containsF_len_zero fuel s n k hk

/-- witness for C10 at concrete inputs: the one node visited by a concrete
walk has a non-zero key, and a concrete `Contains` of the zero key is not
true. -/
theorem c10_zero_key_invisible_witness :
    (⟨kLeft1, true, 0, 0⟩ : node).key.isZero = false ∧
    containsF 20 sBoth 0 zeroKey ≠ some true := by
  refine ⟨?_, c10_zero_key_invisible.2.2 20 sBoth 0 zeroKey rfl⟩
  exact c10_zero_key_invisible.1 20 sBoth 0 zeroKey (fun _ => false)
    [⟨kLeft1, true, 0, 0⟩] rfl ⟨kLeft1, true, 0, 0⟩ (List.mem_singleton.mpr rfl)

end Netipds
